import Mathlib

/-!
Shallow embedding of the go-retry package (package `retry`): the retry loop
`Do`, its helpers `attemptRetry`, `shouldStopRetry`, `checkFatal`, `capDelay`,
the fatal-error wrapper `EndRetry`, and the backoff strategies.

Modelling conventions:
* A Go `error` value is `Option Err`: `none` is Go's `nil`, and `Err` is an
  inductive covering the error shapes relevant here: a plain error
  (`errors.New`), the package's `*fatal` wrapper (whose `cause` field is
  itself a Go error, hence `Option Err`), and a generic single-`Unwrap`
  wrapper layer (`fmt.Errorf %w`-style) used to model error chains.
* `time.Duration` is Go's `int64`; durations are `Int` and every arithmetic
  operation the source performs on them wraps into the signed 64-bit range
  via `wrapInt64`.
* The operation passed to `Do` is stateful in Go (a closure); it is embedded
  as `f : Nat → Option Err` giving the result of its i-th invocation
  (0-indexed), so call counting is explicit.
* `Do`'s loop can run forever (budget -1 with an operation that never
  succeeds), so the loop body is embedded as a fuel-indexed function
  `doLoop`; `none` means the fuel ran out before the loop returned.  Besides
  Go's `(attempts, err)` pair the embedding returns the number of times the
  operation was invoked, to state the spec's invocation-count claims.
* `time.Sleep` has no observable effect on the returned values; the delay is
  still computed each iteration exactly where the source computes it
  (`attemptRetry`), and discarded.
-/

/-- Go error values reachable in this development: `base s` is a plain error
(`errors.New s`); the package's `*fatal{cause: c}` is `fatalNil` when the
wrapped Go error `c` is `nil` and `fatalWrap c` when it is the non-nil error
`c` (the cause field has Go type `error`, i.e. `Option Err`, split into two
constructors); `wrap s e` is a generic wrapper whose `Unwrap` returns `e`,
modelling an extra error-chain layer added around an inner error. -/
inductive Err where
  | base : String → Err
  | fatalNil : Err
  | fatalWrap : Err → Err
  | wrap : String → Err → Err
deriving DecidableEq, Repr

/-- `checkFatal` from the source: `errors.As(err, &fatalErr)` walks the
`Unwrap` chain of `err` looking for a `*fatal`; on a match it returns
`fatalErr.Unwrap()` (the wrapped cause, possibly `nil`), otherwise `nil`. -/
def checkFatal : Err → Option Err
  | .base _ => none
  | .fatalNil => none
  | .fatalWrap c => some c
  | .wrap _ e => checkFatal e

/-- `EndRetry` from the source: wraps an error (possibly `nil`) in the
`fatal` marker: `return &fatal{cause: err}`. -/
def EndRetry : Option Err → Err
  | none => .fatalNil
  | some e => .fatalWrap e

/-- `shouldStopRetry` from the source:
`maxAttempts != -1 && attempts >= maxAttempts`. -/
def shouldStopRetry (attempts maxAttempts : Int) : Bool :=
  maxAttempts != -1 && attempts ≥ maxAttempts

/-- `capDelay` from the source: `if max > 0 && delay > max { return max };
return delay`. -/
def capDelay (delay mx : Int) : Int :=
  if mx > 0 ∧ delay > mx then mx else delay

/-- Signed 64-bit wraparound: the value of an `int64` computation whose
mathematical value is `x`. -/
def wrapInt64 (x : Int) : Int := (x + 2 ^ 63) % 2 ^ 64 - 2 ^ 63

/-- The `retryStrategy` interface from the source: `GetDelay(attempt int)
time.Duration` and `GetAttempts() int`. -/
structure RetryStrategy where
  GetDelay : Int → Int
  GetAttempts : Int

/-- `attemptRetry` from the source: if `attempts > 0` it sleeps
`rs.GetDelay(attempts)` and then invokes the operation.  The embedding
returns the slept duration (0 when no sleep happens) together with the
operation's result on its `calls`-th invocation. -/
def attemptRetry (f : Nat → Option Err) (rs : RetryStrategy)
    (attempts : Int) (calls : Nat) : Int × Option Err :=
  (if attempts > 0 then rs.GetDelay attempts else 0, f calls)

/-- The body of `Do`'s `for {}` loop, fuel-indexed.  `attempts` and `calls`
are the running attempt counter (Go's `attempts`, starting at 0) and the
number of operation invocations made so far.  Returns
`some (attempts, err, calls)` mirroring Go's `(attempts, err)` return plus
the total invocation count, or `none` if the fuel ran out first. -/
def doLoop (f : Nat → Option Err) (rs : RetryStrategy) (maxAttempts : Int)
    (attempts : Int) (calls : Nat) : Nat → Option (Int × Option Err × Nat)
  | 0 => none
  | fuel + 1 =>
    match (attemptRetry f rs attempts calls).2 with
    | none => some (attempts + 1, none, calls + 1)
    | some err =>
      match checkFatal err with
      | some fatalErr => some (attempts + 1, some fatalErr, calls + 1)
      | none =>
        let attempts' := attempts + 1
        if shouldStopRetry attempts' maxAttempts then
          some (attempts', some err, calls + 1)
        else
          doLoop f rs maxAttempts attempts' (calls + 1) fuel

/-- `Do` from the source: reads `maxAttempts := rs.GetAttempts()` once and
runs the retry loop starting from `attempts = 0` with no invocations made. -/
def Do (f : Nat → Option Err) (rs : RetryStrategy) (fuel : Nat) :
    Option (Int × Option Err × Nat) :=
  doLoop f rs rs.GetAttempts 0 0 fuel

/-- `LinearBackoff` from the source. -/
structure LinearBackoff where
  retryDelay : Int
  maxDelay : Int
  attempts : Int

/-- `NewLinearBackoff` from the source. -/
def NewLinearBackoff (retryDelay maxDelay attempts : Int) : LinearBackoff :=
  ⟨retryDelay, maxDelay, attempts⟩

/-- `LinearBackoff.GetDelay` from the source:
`capDelay(time.Duration(attempt)*b.retryDelay, b.maxDelay)`; the `int64`
product wraps on overflow. -/
def LinearBackoff.GetDelay (b : LinearBackoff) (attempt : Int) : Int :=
  capDelay (wrapInt64 (attempt * b.retryDelay)) b.maxDelay

/-- `LinearBackoff.GetAttempts` from the source. -/
def LinearBackoff.GetAttempts (b : LinearBackoff) : Int := b.attempts

/-- View of a `LinearBackoff` through the `retryStrategy` interface. -/
def LinearBackoff.toStrategy (b : LinearBackoff) : RetryStrategy :=
  ⟨b.GetDelay, b.GetAttempts⟩

/-- `ExponentialBackoff` from the source. -/
structure ExponentialBackoff where
  retryDelay : Int
  maxDelay : Int
  attempts : Int

/-- `NewExponentialBackoff` from the source. -/
def NewExponentialBackoff (retryDelay maxDelay attempts : Int) :
    ExponentialBackoff :=
  ⟨retryDelay, maxDelay, attempts⟩

/-- `ExponentialBackoff.GetDelay` from the source:
`capDelay(time.Duration(1<<attempt)*b.retryDelay, b.maxDelay)`.  Go's
non-constant shift `1 << attempt` of an `int` wraps modulo 2^64 (and yields 0
for shift counts ≥ 64), embedded as `wrapInt64 (2 ^ attempt.toNat)`; the
subsequent `int64` product also wraps.  (A negative `attempt` panics in Go;
the embedding is only consulted at `attempt ≥ 0`.) -/
def ExponentialBackoff.GetDelay (b : ExponentialBackoff) (attempt : Int) : Int :=
  capDelay (wrapInt64 (wrapInt64 (2 ^ attempt.toNat) * b.retryDelay)) b.maxDelay

/-- `ExponentialBackoff.GetAttempts` from the source. -/
def ExponentialBackoff.GetAttempts (b : ExponentialBackoff) : Int := b.attempts

/-- View of an `ExponentialBackoff` through the `retryStrategy` interface. -/
def ExponentialBackoff.toStrategy (b : ExponentialBackoff) : RetryStrategy :=
  ⟨b.GetDelay, b.GetAttempts⟩

/-- `ConstantBackoff` from the source. -/
structure ConstantBackoff where
  retryDelay : Int
  attempts : Int

/-- `NewConstantBackoff` from the source. -/
def NewConstantBackoff (retryDelay attempts : Int) : ConstantBackoff :=
  ⟨retryDelay, attempts⟩

/-- `ConstantBackoff.GetDelay` from the source: the fixed delay, uncapped. -/
def ConstantBackoff.GetDelay (b : ConstantBackoff) (_ : Int) : Int :=
  b.retryDelay

/-- `ConstantBackoff.GetAttempts` from the source. -/
def ConstantBackoff.GetAttempts (b : ConstantBackoff) : Int := b.attempts

/-- An operation result that `Do` treats as a retryable failure: a non-nil
error that the fatal check classifies as non-fatal. -/
def retryableFail (r : Option Err) : Prop :=
  ∃ e, r = some e ∧ checkFatal e = none

/-- Iterated generic wrapping: `wrapChain ls e` buries `e` under one generic
`Unwrap` layer per element of `ls`, modelling an operation that re-wraps an
error inside additional context layers. -/
def wrapChain : List String → Err → Err
  | [], e => e
  | s :: ls, e => .wrap s (wrapChain ls e)

/-- Whether the `Unwrap` chain of an error contains the `fatal` marker at
any depth. -/
def chainHasFatal : Err → Bool
  | .base _ => false
  | .fatalNil => true
  | .fatalWrap _ => true
  | .wrap _ e => chainHasFatal e

/-! ### Shared lemmas about the retry loop -/

theorem shouldStopRetry_iff {a n : Int} :
    shouldStopRetry a n = true ↔ n ≠ -1 ∧ n ≤ a := by
  simp [shouldStopRetry]

theorem shouldStopRetry_eq_false_iff {a n : Int} :
    shouldStopRetry a n = false ↔ n = -1 ∨ a < n := by
  rw [← Bool.not_eq_true, shouldStopRetry_iff]
  constructor
  · intro h
    by_cases hn : n = -1
    · exact Or.inl hn
    · exact Or.inr (by omega)
  · intro h hc
    rcases h with h | h <;> omega

theorem attemptRetry_snd (f : Nat → Option Err) (rs : RetryStrategy)
    (a : Int) (c : Nat) : (attemptRetry f rs a c).2 = f c := rfl

/-- Loop step, success case: the invocation returns `nil`. -/
theorem doLoop_succ_none {f : Nat → Option Err} (rs : RetryStrategy)
    {n a : Int} {c : Nat} (fuel : Nat) (h : f c = none) :
    doLoop f rs n a c (fuel + 1) = some (a + 1, none, c + 1) := by
  simp [doLoop, attemptRetry, h]

/-- Loop step, fatal case: the invocation returns an error classified as
fatal with the given cause. -/
theorem doLoop_succ_fatal {f : Nat → Option Err} (rs : RetryStrategy)
    {n a : Int} {c : Nat} (fuel : Nat) {e cause : Err}
    (h : f c = some e) (h2 : checkFatal e = some cause) :
    doLoop f rs n a c (fuel + 1) = some (a + 1, some cause, c + 1) := by
  simp [doLoop, attemptRetry, h, h2]

/-- Loop step, exhaustion case: a retryable failure after which the stop
condition trips. -/
theorem doLoop_succ_retry_stop {f : Nat → Option Err} (rs : RetryStrategy)
    {n a : Int} {c : Nat} (fuel : Nat) {e : Err}
    (h : f c = some e) (h2 : checkFatal e = none)
    (h3 : shouldStopRetry (a + 1) n = true) :
    doLoop f rs n a c (fuel + 1) = some (a + 1, some e, c + 1) := by
  simp [doLoop, attemptRetry, h, h2, h3]

/-- Loop step, continue case: a retryable failure with budget remaining. -/
theorem doLoop_succ_retry_cont {f : Nat → Option Err} (rs : RetryStrategy)
    {n a : Int} {c : Nat} (fuel : Nat) {e : Err}
    (h : f c = some e) (h2 : checkFatal e = none)
    (h3 : shouldStopRetry (a + 1) n = false) :
    doLoop f rs n a c (fuel + 1) = doLoop f rs n (a + 1) (c + 1) fuel := by
  simp [doLoop, attemptRetry, h, h2, h3]

/-- If the loop returns, the attempt counter and the invocation count both
moved past their starting values. -/
theorem doLoop_ge (f : Nat → Option Err) (rs : RetryStrategy) (n : Int) :
    ∀ (fuel : Nat) (a : Int) (c : Nat) (res : Int × Option Err × Nat),
      doLoop f rs n a c fuel = some res → a + 1 ≤ res.1 ∧ c + 1 ≤ res.2.2 := by
  intro fuel
  induction fuel with
  | zero => intro a c res h; exact absurd h (by simp [doLoop])
  | succ fuel ih =>
    intro a c res h
    cases hfc : f c with
    | none =>
      rw [doLoop_succ_none rs fuel hfc] at h
      injection h with h; subst h; exact ⟨le_refl _, le_refl _⟩
    | some e =>
      cases hcf : checkFatal e with
      | some cause =>
        rw [doLoop_succ_fatal rs fuel hfc hcf] at h
        injection h with h; subst h; exact ⟨le_refl _, le_refl _⟩
      | none =>
        cases hstop : shouldStopRetry (a + 1) n with
        | true =>
          rw [doLoop_succ_retry_stop rs fuel hfc hcf hstop] at h
          injection h with h; subst h; exact ⟨le_refl _, le_refl _⟩
        | false =>
          rw [doLoop_succ_retry_cont rs fuel hfc hcf hstop] at h
          obtain ⟨h1, h2⟩ := ih (a + 1) (c + 1) res h
          exact ⟨by omega, by omega⟩

/-- A run of `k ≥ 1` retryable failures that first trips the stop condition
at attempt `a + k`: the loop returns attempt counter `a + k`, the error of
the last invocation, and `k` more invocations made. -/
theorem doLoop_fail_run (f : Nat → Option Err) (rs : RetryStrategy) (n : Int) :
    ∀ (k : Nat) (a : Int) (c fuel : Nat), 0 < k → k ≤ fuel →
      (∀ i : Nat, i + 1 < k → shouldStopRetry (a + i + 1) n = false) →
      shouldStopRetry (a + k) n = true →
      (∀ i : Nat, i < k → retryableFail (f (c + i))) →
      doLoop f rs n a c fuel = some (a + k, f (c + (k - 1)), c + k) := by
  intro k
  induction k with
  | zero => intro a c fuel h0; omega
  | succ k ih =>
    intro a c fuel _ hfuel hmid hstop hfail
    obtain ⟨fu, rfl⟩ : ∃ fu, fuel = fu + 1 := ⟨fuel - 1, by omega⟩
    obtain ⟨e, hfe, hcf⟩ := hfail 0 (Nat.succ_pos k)
    rw [Nat.add_zero] at hfe
    cases k with
    | zero =>
      have hstop' : shouldStopRetry (a + 1) n = true := by
        have harg : a + ((1 : Nat) : Int) = a + 1 := by push_cast; ring
        rwa [harg] at hstop
      rw [doLoop_succ_retry_stop rs fu hfe hcf hstop']
      simp [hfe]
    | succ m =>
      have hnostop : shouldStopRetry (a + 1) n = false := by
        have h0 : shouldStopRetry (a + (0 : Nat) + 1) n = false :=
          hmid 0 (by omega)
        simpa using h0
      rw [doLoop_succ_retry_cont rs fu hfe hcf hnostop]
      have ihres := ih (a + 1) (c + 1) fu (Nat.succ_pos m) (by omega)
        (fun i hi => by
          have := hmid (i + 1) (by omega)
          have harg : a + ((i + 1 : Nat) : Int) + 1 = a + 1 + i + 1 := by
            push_cast; ring
          rwa [harg] at this)
        (by
          have harg : a + ((m + 1 + 1 : Nat) : Int) = a + 1 + ((m + 1 : Nat) : Int) := by
            push_cast; ring
          rwa [harg] at hstop)
        (fun i hi => by
          have := hfail (i + 1) (by omega)
          have harg : c + (i + 1) = c + 1 + i := by omega
          rwa [harg] at this)
      rw [ihres]
      have e1 : a + 1 + ((m + 1 : Nat) : Int) = a + ((m + 1 + 1 : Nat) : Int) := by
        push_cast; ring
      have e2 : c + 1 + (m + 1 - 1) = c + (m + 1 + 1 - 1) := by omega
      have e3 : c + 1 + (m + 1) = c + (m + 1 + 1) := by omega
      rw [e1, e2, e3]

/-- A run of `j` retryable failures followed by an invocation returning
`res` (either `nil` or an error whose fatal classification is `cls`), with
the stop condition never tripped on the way: the loop performs exactly
`j + 1` more invocations and returns from the `(j+1)`-th one. -/
theorem doLoop_final_run (f : Nat → Option Err) (rs : RetryStrategy) (n : Int) :
    ∀ (j : Nat) (a : Int) (c fuel : Nat), j < fuel →
      (∀ i : Nat, i < j → shouldStopRetry (a + i + 1) n = false) →
      (∀ i : Nat, i < j → retryableFail (f (c + i))) →
      (f (c + j) = none ∨
        ∃ e cause, f (c + j) = some e ∧ checkFatal e = some cause) →
      doLoop f rs n a c fuel =
        some (a + j + 1,
          (f (c + j)).bind checkFatal,
          c + j + 1) := by
  intro j
  induction j with
  | zero =>
    intro a c fuel hfuel hmid hfail hlast
    obtain ⟨fu, rfl⟩ : ∃ fu, fuel = fu + 1 := ⟨fuel - 1, by omega⟩
    rcases hlast with hnone | ⟨e, cause, he, hcf⟩
    · rw [Nat.add_zero] at hnone
      rw [doLoop_succ_none rs fu hnone]
      simp [hnone]
    · rw [Nat.add_zero] at he
      rw [doLoop_succ_fatal rs fu he hcf]
      simp [he, hcf]
  | succ j ih =>
    intro a c fuel hfuel hmid hfail hlast
    obtain ⟨fu, rfl⟩ : ∃ fu, fuel = fu + 1 := ⟨fuel - 1, by omega⟩
    obtain ⟨e, hfe, hcf⟩ := hfail 0 (Nat.succ_pos j)
    rw [Nat.add_zero] at hfe
    have hnostop : shouldStopRetry (a + 1) n = false := by
      have h0 : shouldStopRetry (a + (0 : Nat) + 1) n = false := hmid 0 (by omega)
      simpa using h0
    rw [doLoop_succ_retry_cont rs fu hfe hcf hnostop]
    have ihres := ih (a + 1) (c + 1) fu (by omega)
      (fun i hi => by
        have := hmid (i + 1) (by omega)
        have harg : a + ((i + 1 : Nat) : Int) + 1 = a + 1 + i + 1 := by
          push_cast; ring
        rwa [harg] at this)
      (fun i hi => by
        have := hfail (i + 1) (by omega)
        have harg : c + (i + 1) = c + 1 + i := by omega
        rwa [harg] at this)
      (by
        have harg : c + (j + 1) = c + 1 + j := by omega
        rwa [harg] at hlast)
    rw [ihres]
    have e1 : a + 1 + ((j : Nat) : Int) + 1 = a + ((j + 1 : Nat) : Int) + 1 := by
      push_cast; ring
    have e2 : c + 1 + j = c + (j + 1) := by omega
    rw [e1, e2]

/-- In-range `int64` computations do not wrap. -/
theorem wrapInt64_eq_self {x : Int} (h1 : -(2 ^ 63) ≤ x) (h2 : x < 2 ^ 63) :
    wrapInt64 x = x := by
  have e63 : (2 : Int) ^ 63 = 9223372036854775808 := by norm_num
  have e64 : (2 : Int) ^ 64 = 18446744073709551616 := by norm_num
  rw [e63] at h1 h2
  unfold wrapInt64
  rw [e63, e64]
  rw [Int.emod_eq_of_lt (by omega) (by omega)]
  omega

/-! ### Claims -/

/-- C7: `capDelay` is a total pure function over all duration inputs: it
returns `delay` unchanged when `max ≤ 0` (cap disabled) or `delay ≤ max`,
and returns `max` otherwise; whenever `max > 0` the result is `≤ max`. -/
theorem c7_capDelay_spec (delay mx : Int) :
    (mx ≤ 0 → capDelay delay mx = delay) ∧
    (delay ≤ mx → capDelay delay mx = delay) ∧
    (0 < mx → mx < delay → capDelay delay mx = mx) ∧
    (0 < mx → capDelay delay mx ≤ mx) := by
  refine ⟨fun h => ?_, fun h => ?_, fun h1 h2 => ?_, fun h => ?_⟩ <;>
    simp only [capDelay] <;> split_ifs with hc <;> omega

/-- C7 witness: the four cases evaluated at concrete durations. -/
theorem c7_witness :
    capDelay 7 0 = 7 ∧ capDelay 2 5 = 2 ∧ capDelay 9 5 = 5 ∧ capDelay 9 5 ≤ 5 :=
  ⟨(c7_capDelay_spec 7 0).1 (by decide),
   (c7_capDelay_spec 2 5).2.1 (by decide),
   (c7_capDelay_spec 9 5).2.2.1 (by decide) (by decide),
   (c7_capDelay_spec 9 5).2.2.2 (by decide)⟩

/-- C9: `ExponentialBackoff.GetDelay a` equals
`capDelay (2 ^ a * baseDelay) maxDelay` with the `2 ^ a` factor (and the
product) computed in wrapping signed 64-bit duration arithmetic, so for
large attempt indices the computed delay overflows: with base 1ns and cap
disabled, attempt 63 yields `-(2^63)` (negative) and attempt 64 yields 0. -/
theorem c9_exponential_wrapping_overflow :
    (∀ (b m n a : Int), 0 ≤ a →
      (NewExponentialBackoff b m n).GetDelay a =
        capDelay (wrapInt64 (wrapInt64 (2 ^ a.toNat) * b)) m) ∧
    ((NewExponentialBackoff 1 0 (-1)).GetDelay 63 = -(2 ^ 63)) ∧
    ((NewExponentialBackoff 1 0 (-1)).GetDelay 63 < 0) ∧
    ((NewExponentialBackoff 1 0 (-1)).GetDelay 64 = 0) := by
  refine ⟨fun b m n a _ => rfl, by decide, by decide, by decide⟩

/-- C9 witness: the formula instantiated at a concrete in-range strategy
(base 3ns, cap 100ns, attempt 4: delay `2^4 * 3 = 48`ns). -/
theorem c9_witness :
    (NewExponentialBackoff 3 100 5).GetDelay 4 =
      capDelay (wrapInt64 (wrapInt64 (2 ^ (4 : Int).toNat) * 3)) 100 ∧
    (NewExponentialBackoff 3 100 5).GetDelay 4 = 48 :=
  ⟨(c9_exponential_wrapping_overflow).1 3 100 5 4 (by decide), by decide⟩

/-- C4 counterexample: with the wrapped cause `nil`, `EndRetry nil` does NOT
terminate the session early with the cause surfaced — `checkFatal` returns
the nil cause, which `Do` reads as "not fatal", so the wrapper is retried
like any other error and is itself returned on exhaustion (budget 3 gives
attempts 3 and the wrapper, not attempts 1 and `nil`). -/
theorem c4_counterexample_nil_cause :
    Do (fun _ => some (EndRetry none)) ⟨fun _ => 0, 3⟩ 10 =
      some (3, some (EndRetry none), 3) ∧
    (3 : Int) ≠ 1 ∧ some (EndRetry none) ≠ (none : Option Err) := by
  exact ⟨by decide, by decide, by decide⟩

/-- C4 (amended): an error built by `EndRetry` around a non-nil cause always
terminates the retry session on the invocation that returns it, surfacing
the wrapped cause and never the wrapper; when the wrapped cause is nil, the
fatal classification yields nil and the wrapper is instead treated as a
retryable error. -/
theorem c4_amended_nonnil_cause_short_circuit :
    (∀ c : Err, checkFatal (EndRetry (some c)) = some c) ∧
    checkFatal (EndRetry none) = none ∧
    (∀ (rs : RetryStrategy) (f : Nat → Option Err) (c : Err) (fuel : Nat),
      f 0 = some (EndRetry (some c)) → 0 < fuel →
      Do f rs fuel = some (1, some c, 1)) := by
  refine ⟨fun c => rfl, rfl, fun rs f c fuel h0 hfuel => ?_⟩
  obtain ⟨fu, rfl⟩ : ∃ fu, fuel = fu + 1 := ⟨fuel - 1, by omega⟩
  rw [Do, doLoop_succ_fatal rs fu h0 rfl]
  norm_num

/-- C4 witness: a first call returning `EndRetry` around the plain error
`"boom"` makes `Do` stop at one attempt with `"boom"` surfaced. -/
theorem c4_witness :
    Do (fun _ => some (EndRetry (some (Err.base "boom")))) ⟨fun _ => 0, 5⟩ 9 =
      some (1, some (Err.base "boom"), 1) :=
  c4_amended_nonnil_cause_short_circuit.2.2 ⟨fun _ => 0, 5⟩
    (fun _ => some (EndRetry (some (Err.base "boom")))) (Err.base "boom") 9
    rfl (by decide)

/-- C5: the fatal check walks the full error-wrap chain: any error burying a
`fatal`-wrapped cause `c` under arbitrarily many generic wrapper layers is
classified fatal with cause `c` (and `Do` stops immediately returning `c`),
while any error whose chain holds no `fatal` marker at any depth is
classified not fatal. -/
theorem c5_checkFatal_walks_wrap_chain :
    (∀ (ls : List String) (c : Err),
      checkFatal (wrapChain ls (Err.fatalWrap c)) = some c) ∧
    (∀ e : Err, chainHasFatal e = false → checkFatal e = none) ∧
    (∀ (rs : RetryStrategy) (f : Nat → Option Err) (ls : List String)
        (c : Err) (fuel : Nat),
      0 < fuel → f 0 = some (wrapChain ls (Err.fatalWrap c)) →
      Do f rs fuel = some (1, some c, 1)) := by
  have h1 : ∀ (ls : List String) (c : Err),
      checkFatal (wrapChain ls (Err.fatalWrap c)) = some c := by
    intro ls c
    induction ls with
    | nil => rfl
    | cons s ls ih => simpa [wrapChain, checkFatal] using ih
  refine ⟨h1, ?_, ?_⟩
  · intro e he
    induction e with
    | base s => rfl
    | fatalNil => simp [chainHasFatal] at he
    | fatalWrap c ih => simp [chainHasFatal] at he
    | wrap s e ih =>
      rw [chainHasFatal] at he
      rw [checkFatal]
      exact ih he
  · intro rs f ls c fuel hf h0
    obtain ⟨fu, rfl⟩ : ∃ fu, fuel = fu + 1 := ⟨fuel - 1, by omega⟩
    rw [Do, doLoop_succ_fatal rs fu h0 (h1 ls c)]
    norm_num

/-- C5 witness: a fatal cause buried under two wrapper layers is found (and
stops `Do` at one attempt), and a two-layer chain with no fatal marker is
classified not fatal. -/
theorem c5_witness :
    checkFatal (wrapChain ["outer", "inner"] (Err.fatalWrap (Err.base "c"))) =
      some (Err.base "c") ∧
    checkFatal (Err.wrap "outer" (Err.base "plain")) = none ∧
    Do (fun _ => some (wrapChain ["outer", "inner"]
        (Err.fatalWrap (Err.base "c")))) ⟨fun _ => 0, 7⟩ 4 =
      some (1, some (Err.base "c"), 1) :=
  ⟨c5_checkFatal_walks_wrap_chain.1 ["outer", "inner"] (Err.base "c"),
   c5_checkFatal_walks_wrap_chain.2.1 (Err.wrap "outer" (Err.base "plain"))
     (by decide),
   c5_checkFatal_walks_wrap_chain.2.2 ⟨fun _ => 0, 7⟩
     (fun _ => some (wrapChain ["outer", "inner"] (Err.fatalWrap (Err.base "c"))))
     ["outer", "inner"] (Err.base "c") 4 (by decide) rfl⟩

/-- C1: for every strategy whose attempt budget is `n ≥ 1` and every
operation that always returns a non-fatal (retryable) error, `Do` invokes
the operation exactly `n` times and returns `attempts = n` together with the
error of the operation's last (`n`-th) invocation. -/
theorem c1_budget_exhausted_attempts_eq_budget
    (f : Nat → Option Err) (rs : RetryStrategy) (n : Int)
    (hn : rs.GetAttempts = n) (h1 : 1 ≤ n)
    (hf : ∀ i, retryableFail (f i)) :
    Do f rs n.toNat = some (n, f (n.toNat - 1), n.toNat) := by
  rw [Do, hn]
  have hrun := doLoop_fail_run f rs n n.toNat 0 0 n.toNat (by omega) (le_refl _)
    (fun i hi => by rw [shouldStopRetry_eq_false_iff]; right; omega)
    (by rw [shouldStopRetry_iff]; exact ⟨by omega, by omega⟩)
    (fun i _ => hf (0 + i))
  rw [hrun]
  have e1 : (0 : Int) + (n.toNat : Int) = n := by omega
  rw [e1]
  norm_num

/-- C1 witness: budget 2 with an always-failing retryable operation gives
two invocations and the last error back. -/
theorem c1_witness :
    Do (fun _ => some (Err.base "x")) ⟨fun _ => 0, 2⟩ (Int.toNat 2) =
      some (2, some (Err.base "x"), 2) := by
  have h := c1_budget_exhausted_attempts_eq_budget
    (fun _ => some (Err.base "x")) ⟨fun _ => 0, 2⟩ 2 rfl (by decide)
    (fun i => ⟨Err.base "x", rfl, rfl⟩)
  simpa using h

/-- C2 counterexample: with budget `n = 1` (a non-negative budget) and an
always-failing retryable operation, `Do` makes exactly one invocation and
returns `attempts = 1` — not the `n + 1 = 2` total invocations the claim
predicts for a budget that excludes the initial attempt. -/
theorem c2_counterexample_budget_one :
    Do (fun _ => some (Err.base "e")) ⟨fun _ => 0, 1⟩ 10 =
      some (1, some (Err.base "e"), 1) ∧ (1 : Nat) ≠ 1 + 1 := by
  exact ⟨by decide, by decide⟩

/-- C2 (amended): a non-negative budget `n` caps the TOTAL number of
invocations, initial attempt included: with an always-failing retryable
operation `Do` makes exactly `max n 1` invocations (budgets 0 and 1 both
give a single invocation, since the budget is only consulted after the
mandatory first call) and returns that count with the last error. -/
theorem c2_amended_budget_caps_total_invocations
    (f : Nat → Option Err) (rs : RetryStrategy) (n : Int)
    (hn : rs.GetAttempts = n) (h0 : 0 ≤ n)
    (hf : ∀ i, retryableFail (f i)) :
    Do f rs (max n.toNat 1) =
      some (max n 1, f (max n.toNat 1 - 1), max n.toNat 1) := by
  rw [Do, hn]
  have hrun := doLoop_fail_run f rs n (max n.toNat 1) 0 0 (max n.toNat 1)
    (by omega) (le_refl _)
    (fun i hi => by rw [shouldStopRetry_eq_false_iff]; right; omega)
    (by rw [shouldStopRetry_iff]; exact ⟨by omega, by omega⟩)
    (fun i _ => hf (0 + i))
  rw [hrun]
  have e1 : (0 : Int) + ((max n.toNat 1 : Nat) : Int) = max n 1 := by omega
  rw [e1]
  norm_num

/-- C2 witness (amended claim): budget 3 with an always-failing retryable
operation gives exactly three invocations. -/
theorem c2_witness :
    Do (fun _ => some (Err.base "y")) ⟨fun _ => 0, 3⟩ (max (Int.toNat 3) 1) =
      some (3, some (Err.base "y"), 3) := by
  have h := c2_amended_budget_caps_total_invocations
    (fun _ => some (Err.base "y")) ⟨fun _ => 0, 3⟩ 3 rfl (by decide)
    (fun i => ⟨Err.base "y", rfl, rfl⟩)
  simpa using h

/-- C3: if the operation fails retryably on its first `j - 1` invocations
and returns `EndRetry cause` on its `j`-th (the budget not having stopped
the loop before that invocation), `Do` stops immediately with no further
invocations and returns `attempts = j` and the unwrapped cause itself. -/
theorem c3_fatal_jth_call_short_circuit
    (f : Nat → Option Err) (rs : RetryStrategy) (n : Int)
    (hn : rs.GetAttempts = n) (j : Nat) (hj : 1 ≤ j) (cause : Err)
    (hpref : ∀ i, i < j - 1 → retryableFail (f i))
    (hfat : f (j - 1) = some (EndRetry (some cause)))
    (hbudget : ∀ i : Nat, 0 < i → i < j → shouldStopRetry i n = false) :
    Do f rs j = some ((j : Int), some cause, j) := by
  rw [Do, hn]
  have hrun := doLoop_final_run f rs n (j - 1) 0 0 j (by omega)
    (fun i hi => by
      have h := hbudget (i + 1) (by omega) (by omega)
      have harg : (0 : Int) + (i : Int) + 1 = ((i + 1 : Nat) : Int) := by
        push_cast; ring
      rwa [harg])
    (fun i hi => by
      have h := hpref i hi
      rwa [Nat.zero_add])
    (Or.inr ⟨EndRetry (some cause), cause, by rwa [Nat.zero_add], rfl⟩)
  rw [hrun]
  have e0 : (0 : Nat) + (j - 1) = j - 1 := by omega
  rw [e0, hfat]
  have e1 : (0 : Int) + ((j - 1 : Nat) : Int) + 1 = (j : Int) := by omega
  have e2 : j - 1 + 1 = j := by omega
  rw [e1, e2]
  rfl

/-- C3 witness: two retryable failures then `EndRetry cause` on the third
call with budget 5 gives `attempts = 3` and the unwrapped cause. -/
theorem c3_witness :
    Do (fun i => if i < 2 then some (Err.base "transient")
                 else some (EndRetry (some (Err.base "cause"))))
        ⟨fun _ => 0, 5⟩ 3 =
      some (3, some (Err.base "cause"), 3) := by
  have h := c3_fatal_jth_call_short_circuit
    (fun i => if i < 2 then some (Err.base "transient")
              else some (EndRetry (some (Err.base "cause"))))
    ⟨fun _ => 0, 5⟩ 5 rfl 3 (by decide) (Err.base "cause")
    (fun i hi => by
      refine ⟨Err.base "transient", ?_, rfl⟩
      simp only []
      rw [if_pos (by omega)])
    (by decide)
    (fun i h0 hij => by
      interval_cases i <;> decide)
  exact h

/-- C6: with budget `-1` (unlimited) and an operation that fails
non-fatally on its first `k - 1` invocations and succeeds on the `k`-th,
`Do` returns `attempts = k` and a nil error, and the operation is invoked
exactly `k` times. -/
theorem c6_unlimited_success_on_kth
    (f : Nat → Option Err) (rs : RetryStrategy)
    (hn : rs.GetAttempts = -1) (k : Nat) (hk : 1 ≤ k)
    (hpref : ∀ i, i < k - 1 → retryableFail (f i))
    (hsucc : f (k - 1) = none) :
    Do f rs k = some ((k : Int), none, k) := by
  rw [Do, hn]
  have hrun := doLoop_final_run f rs (-1) (k - 1) 0 0 k (by omega)
    (fun i _ => by rw [shouldStopRetry_eq_false_iff]; left; rfl)
    (fun i hi => by
      have h := hpref i hi
      rwa [Nat.zero_add])
    (Or.inl (by rwa [Nat.zero_add]))
  rw [hrun]
  have e0 : (0 : Nat) + (k - 1) = k - 1 := by omega
  rw [e0, hsucc]
  have e1 : (0 : Int) + ((k - 1 : Nat) : Int) + 1 = (k : Int) := by omega
  have e2 : k - 1 + 1 = k := by omega
  rw [e1, e2]
  rfl

/-- C6 witness: unlimited budget, two retryable failures then success on
the third call: `Do` returns `(3, nil)` after exactly three invocations. -/
theorem c6_witness :
    Do (fun i => if i < 2 then some (Err.base "transient") else none)
        ⟨fun _ => 0, -1⟩ 3 =
      some (3, none, 3) := by
  have h := c6_unlimited_success_on_kth
    (fun i => if i < 2 then some (Err.base "transient") else none)
    ⟨fun _ => 0, -1⟩ rfl 3 (by decide)
    (fun i hi => by
      refine ⟨Err.base "transient", ?_, rfl⟩
      simp only []
      rw [if_pos (by omega)])
    (by decide)
  exact h

/-- C10: `Do` invokes the operation once before ever consulting the budget:
with budget 0 and an always-failing retryable operation it returns
`attempts = 1` with that error after one invocation, and in general any
returning run of `Do` has made at least one invocation and reports
`attempts ≥ 1`. -/
theorem c10_always_at_least_one_attempt
    (f : Nat → Option Err) (rs : RetryStrategy) :
    (rs.GetAttempts = 0 → (∀ i, retryableFail (f i)) →
      Do f rs 1 = some (1, f 0, 1)) ∧
    (∀ (fuel : Nat) (res : Int × Option Err × Nat),
      Do f rs fuel = some res → 1 ≤ res.1 ∧ 1 ≤ res.2.2) := by
  constructor
  · intro hn hf
    rw [Do, hn]
    obtain ⟨e, hfe, hcf⟩ := hf 0
    rw [doLoop_succ_retry_stop rs 0 hfe hcf (by decide)]
    rw [hfe]
    norm_num
  · intro fuel res h
    rw [Do] at h
    have hge := doLoop_ge f rs rs.GetAttempts fuel 0 0 res h
    exact ⟨by omega, by omega⟩

/-- C10 witness: budget 0 with an always-failing retryable operation gives
one invocation and `attempts = 1`, which indeed satisfies the general
`attempts ≥ 1` bound. -/
theorem c10_witness :
    Do (fun _ => some (Err.base "z")) ⟨fun _ => 0, 0⟩ 1 =
      some (1, some (Err.base "z"), 1) ∧
    (1 : Int) ≥ 1 := by
  have h := (c10_always_at_least_one_attempt
    (fun _ => some (Err.base "z")) ⟨fun _ => 0, 0⟩).1 rfl
    (fun i => ⟨Err.base "z", rfl, rfl⟩)
  exact ⟨h, by decide⟩

/-- C8: `LinearBackoff.GetDelay a` is `capDelay (a * baseDelay) maxDelay`
(the product being the `int64` duration product, which agrees with the
mathematical product whenever it is in signed 64-bit range); and in the
concrete scenario `NewLinearBackoff(500ms, 2s, 5)` with an always-failing
retryable operation, `Do` returns `(5, that error)` after five invocations
and `GetDelay 4 = 2s`, exactly at the cap. -/
theorem c8_linear_backoff_formula_and_scenario :
    (∀ (b m n a : Int), -(2 ^ 63) ≤ a * b → a * b < 2 ^ 63 →
      (NewLinearBackoff b m n).GetDelay a = capDelay (a * b) m) ∧
    ((NewLinearBackoff 500000000 2000000000 5).GetDelay 4 = 2000000000) ∧
    (∀ (f : Nat → Option Err) (e : Err),
      (∀ i, f i = some e) → checkFatal e = none →
      Do f (NewLinearBackoff 500000000 2000000000 5).toStrategy 5 =
        some (5, some e, 5)) := by
  refine ⟨fun b m n a h1 h2 => ?_, by decide, fun f e hf hcf => ?_⟩
  · show capDelay (wrapInt64 (a * b)) m = capDelay (a * b) m
    rw [wrapInt64_eq_self h1 h2]
  · rw [Do]
    have hrun := doLoop_fail_run f
      (NewLinearBackoff 500000000 2000000000 5).toStrategy 5 5 0 0 5
      (by decide) (le_refl _)
      (fun i hi => by rw [shouldStopRetry_eq_false_iff]; right; omega)
      (by rw [shouldStopRetry_iff]; exact ⟨by decide, by omega⟩)
      (fun i _ => ⟨e, hf _, hcf⟩)
    rw [show (NewLinearBackoff 500000000 2000000000 5).toStrategy.GetAttempts
          = 5 from rfl]
    rw [hrun, hf (0 + (5 - 1))]
    norm_num

/-- C8 witness: the formula at attempt 4 (product `2s`, in range) and the
`Do` scenario with a concrete always-failing operation. -/
theorem c8_witness :
    (NewLinearBackoff 500000000 2000000000 5).GetDelay 4 =
      capDelay (4 * 500000000) 2000000000 ∧
    Do (fun _ => some (Err.base "w"))
        (NewLinearBackoff 500000000 2000000000 5).toStrategy 5 =
      some (5, some (Err.base "w"), 5) :=
  ⟨c8_linear_backoff_formula_and_scenario.1 500000000 2000000000 5 4
    (by norm_num) (by norm_num),
   c8_linear_backoff_formula_and_scenario.2.2 (fun _ => some (Err.base "w"))
    (Err.base "w") (fun i => rfl) rfl⟩
